import Mathlib

/-!
Shallow embedding of the Listen Together live-session hub
(`server/listentogether/hub.go`) and proofs of the specified properties.

Modelling conventions:
* Go `float32`/`float64` playback positions and durations are modelled as `Rat`
  (the handlers only assign and compare them; no float rounding is involved).
* Go maps (`participants`, `Hub.sessions`) are modelled as association lists;
  map insertion overwrites any entry with the same key.
* Message sends are modelled as emitted `Event`s (a non-blocking enqueue
  attempt in the Go code corresponds to one emitted event here; whether the
  channel is full is a timing concern outside the embedding).
* Go `int` payload fields are modelled as `Int`; internal indices that the
  code keeps non-negative (`currentIndex`, queue entries) are `Nat`.
  The only `int` arithmetic on `currentIndex` is guarded decrements
  (`currentIndex > 0`, `p < currentIndex`), where `Nat` subtraction agrees
  with Go `int` subtraction, and `len(queue)-1` appears only in the
  comparison `currentIndex < len(queue)-1`, which is false for `len = 0`
  both over `Int` (`-1`) and over `Nat` (truncated `0`).
-/

namespace ListenTogether

/-- TrackInfo holds metadata and the streaming token for a track in the session. -/
structure TrackInfo where
  id : String
  token : String
  title : String
  artist : String
  album : String
  duration : Rat
  mediaFileID : String
deriving DecidableEq

/-- Zero value of `TrackInfo`, as produced by Go `make([]TrackInfo, n)`. -/
def TrackInfo.zero : TrackInfo := ⟨"", "", "", "", "", 0, ""⟩

/-- Participant represents a connected WebSocket client (join time as `Nat` ticks). -/
structure Participant where
  id : String
  name : String
  isHost : Bool
  joinedAt : Nat
deriving DecidableEq

/-- MediaFile is the slice of `model.MediaFile` the hub reads. -/
structure MediaFile where
  id : String
  title : String
  artist : String
  album : String
  duration : Rat
deriving DecidableEq

/-- StatePayload is broadcast to all participants after state changes. -/
structure StatePayload where
  action : String
  currentTrackIndex : Nat
  position : Rat
  isPlaying : Bool
  queue : List TrackInfo
deriving DecidableEq

/-- ParticipantInfo is the public info about a participant. -/
structure ParticipantInfo where
  id : String
  name : String
  isHost : Bool
deriving DecidableEq

/-- Payload of a server-to-client message (structured, in place of raw JSON). -/
inductive MsgPayload where
  | empty
  | errorText (message : String)
  | state (sp : StatePayload)
  | participantsList (ps : List ParticipantInfo)
  | remote (holderID holderName : String)
  | remoteRequested (fromID fromName : String)
  | welcome (yourID : String)
deriving DecidableEq

/-- WSMessage is the message format exchanged over WebSocket. -/
structure WSMessage where
  type : String
  action : String
  payload : MsgPayload
deriving DecidableEq

/-- Event is an observable effect of a handler: an enqueue attempt onto a
participant's send channel, or closing a participant's connection. -/
inductive Event where
  | send (participantID : String) (msg : WSMessage)
  | closeConn (participantID : String)
deriving DecidableEq

/-- LiveSession holds the runtime state of an active listening session. -/
structure LiveSession where
  sessionID : String
  hostUserID : String
  format : String
  maxBitRate : Int
  tracks : List TrackInfo
  queue : List Nat
  currentIndex : Nat
  position : Rat
  isPlaying : Bool
  remoteHolder : String
  participants : List Participant
deriving DecidableEq

/-- Command is the closed variant of client command actions, with the decoded
payload attached.  For `queue_add` the external media-library lookup result is
part of the command (`none` models a failed lookup). -/
inductive Command where
  | play
  | pause
  | seek (position : Rat)
  | skipNext
  | skipPrev
  | sync (position : Rat) (trackIndex : Int)
  | passRemote (participantID : String)
  | requestRemote
  | acceptRemoteRequest (participantID : String)
  | queueAdd (lookup : Option MediaFile)
  | queueRemove (queuePosition : Int)
  | queueReorder (fromPos toPos : Int)
  | endSession
  | unknown (action : String)
deriving DecidableEq

/-- StepResult is the outcome of handling one message: the new session state,
the emitted events, and whether the session is to be evicted from the hub
(set only by `end_session`). -/
structure StepResult where
  session : LiveSession
  events : List Event
  removeFromHub : Bool
deriving DecidableEq

/-- Modelled from the spec: `auth.CreateExpiringPublicToken` is external to the
sources, so the token minter is modelled as an opaque pure function of the
claims `{trackId, format?, maxBitRate?}`. -/
def generateStreamToken (mediaFileID : String) (format : String) (maxBitRate : Int) : String :=
  mediaFileID ++ "|" ++ format ++ "|" ++ toString maxBitRate

/-- CreateSession creates a new live session from a persisted ListenSession. -/
def CreateSession (sessionID userID format : String) (maxBitRate : Int)
    (trackFiles : List MediaFile) : LiveSession :=
  { sessionID := sessionID
    hostUserID := userID
    format := format
    maxBitRate := maxBitRate
    tracks := trackFiles.map (fun mf =>
      { id := mf.id
        token := generateStreamToken mf.id format maxBitRate
        title := mf.title
        artist := mf.artist
        album := mf.album
        duration := mf.duration
        mediaFileID := mf.id })
    queue := List.range trackFiles.length
    currentIndex := 0
    position := 0
    isPlaying := false
    remoteHolder := ""
    participants := [] }

/-- Hub manages all active listening sessions (association list keyed by ID). -/
structure Hub where
  sessions : List (String × LiveSession)

/-- GetSession returns a live session by ID (`none` models Go's nil map read). -/
def Hub.GetSession (h : Hub) (sessionID : String) : Option LiveSession :=
  (h.sessions.find? (fun kv => kv.1 = sessionID)).map (fun kv => kv.2)

/-- RemoveSession removes a live session from the hub map. -/
def Hub.removeSession (h : Hub) (sessionID : String) : Hub :=
  ⟨h.sessions.filter (fun kv => kv.1 ≠ sessionID)⟩

/-- Join adds a participant to the session (map insert overwrites the key) and
assigns the remote if unheld or if the joiner is host. -/
def Join (ls : LiveSession) (p : Participant) : LiveSession :=
  { ls with
    participants := ls.participants.filter (fun q => q.id ≠ p.id) ++ [p]
    remoteHolder := if ls.remoteHolder = "" ∨ p.isHost then p.id else ls.remoteHolder }

/-- FindLongestConnected returns the ID of the longest-connected participant,
mirroring the strict `Before` fold over the participant map. -/
def findLongestConnected (ps : List Participant) : String :=
  match ps.foldl (fun oldest p =>
      match oldest with
      | none => some p
      | some o => if p.joinedAt < o.joinedAt then some p else oldest) none with
  | some o => o.id
  | none => ""

/-- StateSnapshot builds the `StatePayload` broadcast under the read lock;
queue entries that are not valid track indices yield the zero `TrackInfo`,
as in the Go copy loop. -/
def stateSnapshot (ls : LiveSession) (action : String) : StatePayload :=
  { action := action
    currentTrackIndex := ls.currentIndex
    position := ls.position
    isPlaying := ls.isPlaying
    queue := ls.queue.map (fun idx => (ls.tracks[idx]?).getD TrackInfo.zero) }

/-- BroadcastState sends the current state to all participants. -/
def broadcastState (ls : LiveSession) (action : String) : List Event :=
  ls.participants.map (fun p =>
    Event.send p.id ⟨"state", "", MsgPayload.state (stateSnapshot ls action)⟩)

/-- BroadcastParticipants sends the participant list to everyone. -/
def broadcastParticipants (ls : LiveSession) : List Event :=
  ls.participants.map (fun p =>
    Event.send p.id ⟨"participants", "",
      MsgPayload.participantsList (ls.participants.map (fun q => ⟨q.id, q.name, q.isHost⟩))⟩)

/-- BroadcastRemote sends the remote holder info to everyone. -/
def broadcastRemote (ls : LiveSession) : List Event :=
  ls.participants.map (fun p =>
    Event.send p.id ⟨"remote", "",
      MsgPayload.remote ls.remoteHolder
        (((ls.participants.find? (fun q => q.id = ls.remoteHolder)).map
          (fun q => q.name)).getD "")⟩)

/-- SendError builds the targeted error message event for one participant. -/
def sendError (p : Participant) (errMsg : String) : Event :=
  Event.send p.id ⟨"error", "", MsgPayload.errorText errMsg⟩

/-- Leave removes a participant and handles remote transfer; returns the new
state and broadcast events (the grace timer of the empty branch is a timing
effect outside the embedding). -/
def Leave (ls : LiveSession) (participantID : String) : LiveSession × List Event :=
  match ls.participants.find? (fun q => q.id = participantID) with
  | none => (ls, [])
  | some _ =>
    let ps := ls.participants.filter (fun q => q.id ≠ participantID)
    let holder := if ls.remoteHolder = participantID then findLongestConnected ps
                  else ls.remoteHolder
    let ls2 := { ls with participants := ps, remoteHolder := holder }
    if ps.length = 0 then (ls2, [])
    else (ls2, broadcastParticipants ls2 ++ (if holder ≠ "" then broadcastRemote ls2 else []))

/-- IsRemoteHolder tests whether a participant currently holds the remote. -/
def isRemoteHolder (ls : LiveSession) (p : Participant) : Bool :=
  ls.remoteHolder = p.id

def handlePlay (ls : LiveSession) (sender : Participant) : StepResult :=
  if isRemoteHolder ls sender then
    let ls2 := { ls with isPlaying := true }
    ⟨ls2, broadcastState ls2 "play", false⟩
  else ⟨ls, [sendError sender "only the remote holder can control playback"], false⟩

def handlePause (ls : LiveSession) (sender : Participant) : StepResult :=
  if isRemoteHolder ls sender then
    let ls2 := { ls with isPlaying := false }
    ⟨ls2, broadcastState ls2 "pause", false⟩
  else ⟨ls, [sendError sender "only the remote holder can control playback"], false⟩

def handleSeek (ls : LiveSession) (sender : Participant) (position : Rat) : StepResult :=
  if isRemoteHolder ls sender then
    let ls2 := { ls with position := position }
    ⟨ls2, broadcastState ls2 "seek", false⟩
  else ⟨ls, [sendError sender "only the remote holder can control playback"], false⟩

def handleSkipNext (ls : LiveSession) (sender : Participant) : StepResult :=
  if isRemoteHolder ls sender then
    let ls2 := if ls.currentIndex < ls.queue.length - 1 then
        { ls with currentIndex := ls.currentIndex + 1, position := 0 }
      else ls
    ⟨ls2, broadcastState ls2 "skip_next", false⟩
  else ⟨ls, [sendError sender "only the remote holder can control playback"], false⟩

def handleSkipPrev (ls : LiveSession) (sender : Participant) : StepResult :=
  if isRemoteHolder ls sender then
    let ls2 := if ls.currentIndex > 0 then
        { ls with currentIndex := ls.currentIndex - 1, position := 0 }
      else ls
    ⟨ls2, broadcastState ls2 "skip_prev", false⟩
  else ⟨ls, [sendError sender "only the remote holder can control playback"], false⟩

def handleSync (ls : LiveSession) (sender : Participant) (position : Rat)
    (trackIndex : Int) : StepResult :=
  if isRemoteHolder ls sender then
    let ls2 := { ls with
      position := position
      currentIndex := if 0 ≤ trackIndex ∧ trackIndex < (ls.queue.length : Int) then
          trackIndex.toNat
        else ls.currentIndex }
    ⟨ls2, [], false⟩
  else ⟨ls, [], false⟩

def handlePassRemote (ls : LiveSession) (sender : Participant)
    (participantID : String) : StepResult :=
  if isRemoteHolder ls sender then
    match ls.participants.find? (fun q => q.id = participantID) with
    | none => ⟨ls, [sendError sender "participant not found"], false⟩
    | some _ =>
      let ls2 := { ls with remoteHolder := participantID }
      ⟨ls2, broadcastRemote ls2, false⟩
  else ⟨ls, [sendError sender "only the remote holder can pass the remote"], false⟩

def handleRequestRemote (ls : LiveSession) (sender : Participant) : StepResult :=
  match ls.participants.find? (fun q => q.id = ls.remoteHolder) with
  | none => ⟨ls, [], false⟩
  | some holder =>
    ⟨ls, [Event.send holder.id
      ⟨"remote_requested", "", MsgPayload.remoteRequested sender.id sender.name⟩], false⟩

def handleAcceptRemoteRequest (ls : LiveSession) (sender : Participant)
    (participantID : String) : StepResult :=
  if isRemoteHolder ls sender then
    match ls.participants.find? (fun q => q.id = participantID) with
    | none => ⟨ls, [sendError sender "participant not found"], false⟩
    | some _ =>
      let ls2 := { ls with remoteHolder := participantID }
      ⟨ls2, broadcastRemote ls2, false⟩
  else ⟨ls, [sendError sender "only the remote holder can accept requests"], false⟩

def handleQueueAdd (ls : LiveSession) (sender : Participant)
    (lookup : Option MediaFile) : StepResult :=
  if isRemoteHolder ls sender then
    match lookup with
    | none => ⟨ls, [sendError sender "track not found"], false⟩
    | some mf =>
      let track : TrackInfo :=
        { id := mf.id
          token := generateStreamToken mf.id ls.format ls.maxBitRate
          title := mf.title
          artist := mf.artist
          album := mf.album
          duration := mf.duration
          mediaFileID := mf.id }
      let newIdx := ls.tracks.length
      let ls2 := { ls with tracks := ls.tracks ++ [track], queue := ls.queue ++ [newIdx] }
      ⟨ls2, broadcastState ls2 "queue_add", false⟩
  else ⟨ls, [sendError sender "only the remote holder can modify the queue"], false⟩

def handleQueueRemove (ls : LiveSession) (sender : Participant)
    (queuePosition : Int) : StepResult :=
  if isRemoteHolder ls sender then
    if queuePosition < 0 ∨ (ls.queue.length : Int) ≤ queuePosition then
      ⟨ls, [sendError sender "invalid queue position"], false⟩
    else
      let p := queuePosition.toNat
      if p = ls.currentIndex then
        ⟨ls, [sendError sender "cannot remove the currently playing track"], false⟩
      else
        let ls2 := { ls with
          queue := ls.queue.take p ++ ls.queue.drop (p + 1)
          currentIndex := if p < ls.currentIndex then ls.currentIndex - 1
                          else ls.currentIndex }
        ⟨ls2, broadcastState ls2 "queue_remove", false⟩
  else ⟨ls, [sendError sender "only the remote holder can modify the queue"], false⟩

def handleQueueReorder (ls : LiveSession) (sender : Participant)
    (fromPos toPos : Int) : StepResult :=
  if isRemoteHolder ls sender then
    if fromPos < 0 ∨ (ls.queue.length : Int) ≤ fromPos ∨
        toPos < 0 ∨ (ls.queue.length : Int) ≤ toPos then
      ⟨ls, [sendError sender "invalid queue positions"], false⟩
    else
      let f := fromPos.toNat
      let t := toPos.toNat
      let item := ls.queue.getD f 0
      let q1 := ls.queue.take f ++ ls.queue.drop (f + 1)
      let q2 := q1.take t ++ [item] ++ q1.drop t
      let ci := ls.currentIndex
      let ci2 := if f = ci then t
        else if f < ci ∧ ci ≤ t then ci - 1
        else if ci < f ∧ t ≤ ci then ci + 1
        else ci
      let ls2 := { ls with queue := q2, currentIndex := ci2 }
      ⟨ls2, broadcastState ls2 "queue_reorder", false⟩
  else ⟨ls, [sendError sender "only the remote holder can modify the queue"], false⟩

def handleEndSession (ls : LiveSession) (sender : Participant) : StepResult :=
  if isRemoteHolder ls sender then
    ⟨ls, ls.participants.flatMap (fun p =>
      [Event.send p.id ⟨"error", "session_ended", MsgPayload.empty⟩,
       Event.closeConn p.id]), true⟩
  else ⟨ls, [sendError sender "only the remote holder can end the session"], false⟩

/-- HandleMessage processes an incoming WebSocket command from a participant. -/
def HandleMessage (ls : LiveSession) (sender : Participant) (msg : Command) : StepResult :=
  match msg with
  | .play => handlePlay ls sender
  | .pause => handlePause ls sender
  | .seek position => handleSeek ls sender position
  | .skipNext => handleSkipNext ls sender
  | .skipPrev => handleSkipPrev ls sender
  | .sync position trackIndex => handleSync ls sender position trackIndex
  | .passRemote participantID => handlePassRemote ls sender participantID
  | .requestRemote => handleRequestRemote ls sender
  | .acceptRemoteRequest participantID => handleAcceptRemoteRequest ls sender participantID
  | .queueAdd lookup => handleQueueAdd ls sender lookup
  | .queueRemove queuePosition => handleQueueRemove ls sender queuePosition
  | .queueReorder fromPos toPos => handleQueueReorder ls sender fromPos toPos
  | .endSession => handleEndSession ls sender
  | .unknown action => ⟨ls, [sendError sender ("unknown action: " ++ action)], false⟩

/-- Op is one externally triggered session operation: a join, a leave, or a
command from a connected participant. -/
inductive Op where
  | join (p : Participant)
  | leave (participantID : String)
  | command (sender : Participant) (c : Command)

/-- ApplyOp runs one operation on the session state, ignoring emitted events. -/
def applyOp (ls : LiveSession) (op : Op) : LiveSession :=
  match op with
  | .join p => Join ls p
  | .leave participantID => (Leave ls participantID).1
  | .command sender c => (HandleMessage ls sender c).session

/-- ApplyOps folds a sequence of operations over a session state. -/
def applyOps (ls : LiveSession) (ops : List Op) : LiveSession :=
  ops.foldl applyOp ls

/-- CurrentTrack resolves the currently playing track through
`tracks[queue[currentIndex]]`, `none` when either index is out of range. -/
def currentTrack (ls : LiveSession) : Option TrackInfo :=
  (ls.queue[ls.currentIndex]?).bind (fun idx => ls.tracks[idx]?)

/-- SpecClamp is the clamp function named by the specification of `seek`
(this definition follows the spec's words, for comparison with the code). -/
def specClamp (x lo hi : Rat) : Rat := max lo (min x hi)

/-- IsHolderOnly lists the commands the spec marks as requiring the remote
holder role (statement-side predicate used to quantify claims). -/
def isHolderOnly : Command → Bool
  | .play | .pause | .seek _ | .skipNext | .skipPrev | .passRemote _
  | .acceptRemoteRequest _ | .queueAdd _ | .queueRemove _ | .queueReorder _ _
  | .endSession => true
  | _ => false

/-! Concrete fixtures used by witnesses and counterexamples. -/

def hostP : Participant := ⟨"P1", "H", true, 0⟩

def guestP : Participant := ⟨"P2", "G", false, 5⟩

def mf0 : MediaFile := ⟨"m0", "T0", "A0", "B0", 10⟩

def mf1 : MediaFile := ⟨"m1", "T1", "A1", "B1", 20⟩

def mf2 : MediaFile := ⟨"m2", "T2", "A2", "B2", 30⟩

/-- Demo session with two tracks whose host has joined and holds the remote. -/
def demoSession : LiveSession := Join (CreateSession "S" "u" "" 0 [mf0, mf1]) hostP

/-- Demo session with three tracks, host joined, playing the middle track. -/
def demoSession3 : LiveSession :=
  { Join (CreateSession "S3" "u" "" 0 [mf0, mf1, mf2]) hostP with currentIndex := 1 }

/-- Demo session with an empty track list whose host has joined. -/
def emptySession : LiveSession := Join (CreateSession "E" "u" "" 0 []) hostP

/-! Helper lemmas about the Go slice splice `q[:p] ++ q[p+1:]` and the
insertion `q[:t] ++ [x] ++ q[t:]`. -/

theorem splice_getElem?_of_lt {α} {q : List α} {p i : Nat} (hp : p < q.length)
    (hip : i < p) : (q.take p ++ q.drop (p + 1))[i]? = q[i]? := by
  have hl : i < (q.take p).length := by rw [List.length_take]; omega
  rw [List.getElem?_append_left hl, List.getElem?_take_of_lt hip]

theorem splice_getElem?_of_ge {α} {q : List α} {p i : Nat} (hp : p < q.length)
    (hpi : p ≤ i) : (q.take p ++ q.drop (p + 1))[i]? = q[i + 1]? := by
  have hl : (q.take p).length ≤ i := by rw [List.length_take]; omega
  rw [List.getElem?_append_right hl, List.getElem?_drop]
  congr 1
  rw [List.length_take]
  omega

theorem splice_length {α} {q : List α} {p : Nat} (hp : p < q.length) :
    (q.take p ++ q.drop (p + 1)).length = q.length - 1 := by
  rw [List.length_append, List.length_take, List.length_drop]; omega

theorem insert_getElem?_of_lt {α} {l : List α} {x : α} {t j : Nat} (ht : t ≤ l.length)
    (hjt : j < t) : (l.take t ++ [x] ++ l.drop t)[j]? = l[j]? := by
  have hlt : (l.take t).length = t := by rw [List.length_take]; omega
  have h1 : j < (l.take t ++ [x]).length := by
    simp only [List.length_append, List.length_singleton, hlt]; omega
  rw [List.getElem?_append_left h1, List.getElem?_append_left (by rw [hlt]; omega),
    List.getElem?_take_of_lt hjt]

theorem insert_getElem?_self {α} {l : List α} {x : α} {t : Nat} (ht : t ≤ l.length) :
    (l.take t ++ [x] ++ l.drop t)[t]? = some x := by
  have hlt : (l.take t).length = t := by rw [List.length_take]; omega
  have h1 : t < (l.take t ++ [x]).length := by
    simp only [List.length_append, List.length_singleton, hlt]; omega
  rw [List.getElem?_append_left h1, List.getElem?_append_right (by rw [hlt])]
  rw [hlt, Nat.sub_self]
  rfl

theorem insert_getElem?_of_gt {α} {l : List α} {x : α} {t j : Nat} (ht : t ≤ l.length)
    (hjt : t < j) : (l.take t ++ [x] ++ l.drop t)[j]? = l[j - 1]? := by
  have hlt : (l.take t).length = t := by rw [List.length_take]; omega
  have h1 : (l.take t ++ [x]).length ≤ j := by
    simp only [List.length_append, List.length_singleton, hlt]; omega
  rw [List.getElem?_append_right h1, List.getElem?_drop]
  congr 1
  simp only [List.length_append, List.length_singleton, hlt]
  omega

theorem splice_perm {α} (q : List α) (p : Nat) (hp : p < q.length) :
    List.Perm q (q[p] :: (q.take p ++ q.drop (p + 1))) := by
  conv_lhs => rw [← List.take_append_drop p q, ← List.getElem_cons_drop q p hp]
  exact List.perm_middle

theorem insert_perm {α} (l : List α) (x : α) (t : Nat) :
    List.Perm (l.take t ++ [x] ++ l.drop t) (x :: l) := by
  have h1 : l.take t ++ [x] ++ l.drop t = l.take t ++ (x :: l.drop t) := by
    rw [List.append_assoc]; rfl
  rw [h1]
  have h2 : List.Perm (l.take t ++ (x :: l.drop t)) (x :: (l.take t ++ l.drop t)) :=
    List.perm_middle
  rw [List.take_append_drop] at h2
  exact h2

/-! Characterizations of the session-state component of each handler. -/

theorem session_handlePlay (ls : LiveSession) (sender : Participant) :
    (handlePlay ls sender).session =
      if isRemoteHolder ls sender then { ls with isPlaying := true } else ls := by
  simp only [handlePlay]; split <;> rfl

theorem session_handlePause (ls : LiveSession) (sender : Participant) :
    (handlePause ls sender).session =
      if isRemoteHolder ls sender then { ls with isPlaying := false } else ls := by
  simp only [handlePause]; split <;> rfl

theorem session_handleSeek (ls : LiveSession) (sender : Participant) (p : Rat) :
    (handleSeek ls sender p).session =
      if isRemoteHolder ls sender then { ls with position := p } else ls := by
  simp only [handleSeek]; split <;> rfl

theorem session_handleSkipNext (ls : LiveSession) (sender : Participant) :
    (handleSkipNext ls sender).session =
      if isRemoteHolder ls sender then
        if ls.currentIndex < ls.queue.length - 1 then
          { ls with currentIndex := ls.currentIndex + 1, position := 0 }
        else ls
      else ls := by
  simp only [handleSkipNext]; split <;> [split <;> rfl; rfl]

theorem session_handleSkipPrev (ls : LiveSession) (sender : Participant) :
    (handleSkipPrev ls sender).session =
      if isRemoteHolder ls sender then
        if ls.currentIndex > 0 then
          { ls with currentIndex := ls.currentIndex - 1, position := 0 }
        else ls
      else ls := by
  simp only [handleSkipPrev]; split <;> [split <;> rfl; rfl]

theorem session_handleSync (ls : LiveSession) (sender : Participant) (p : Rat) (ti : Int) :
    (handleSync ls sender p ti).session =
      if isRemoteHolder ls sender then
        { ls with
          position := p
          currentIndex := if 0 ≤ ti ∧ ti < (ls.queue.length : Int) then ti.toNat
                          else ls.currentIndex }
      else ls := by
  simp only [handleSync]; split <;> rfl

theorem session_handlePassRemote (ls : LiveSession) (sender : Participant) (pid : String) :
    (handlePassRemote ls sender pid).session =
      if isRemoteHolder ls sender then
        if (ls.participants.find? (fun q => q.id = pid)).isSome then
          { ls with remoteHolder := pid }
        else ls
      else ls := by
  simp only [handlePassRemote]
  split
  · rename_i hh
    rcases hfind : ls.participants.find? (fun q => q.id = pid) with _ | q <;>
      simp [hh, hfind]
  · rename_i hh
    simp [hh]

theorem session_handleRequestRemote (ls : LiveSession) (sender : Participant) :
    (handleRequestRemote ls sender).session = ls := by
  simp only [handleRequestRemote]
  rcases hfind : ls.participants.find? (fun q => q.id = ls.remoteHolder) with _ | q <;>
    rw [hfind]

theorem session_handleAcceptRemoteRequest (ls : LiveSession) (sender : Participant)
    (pid : String) :
    (handleAcceptRemoteRequest ls sender pid).session =
      if isRemoteHolder ls sender then
        if (ls.participants.find? (fun q => q.id = pid)).isSome then
          { ls with remoteHolder := pid }
        else ls
      else ls := by
  simp only [handleAcceptRemoteRequest]
  split
  · rename_i hh
    rcases hfind : ls.participants.find? (fun q => q.id = pid) with _ | q <;>
      simp [hh, hfind]
  · rename_i hh
    simp [hh]

theorem session_handleQueueAdd (ls : LiveSession) (sender : Participant)
    (lookup : Option MediaFile) :
    (handleQueueAdd ls sender lookup).session =
      if isRemoteHolder ls sender then
        match lookup with
        | none => ls
        | some mf =>
          { ls with
            tracks := ls.tracks ++
              [{ id := mf.id
                 token := generateStreamToken mf.id ls.format ls.maxBitRate
                 title := mf.title
                 artist := mf.artist
                 album := mf.album
                 duration := mf.duration
                 mediaFileID := mf.id }]
            queue := ls.queue ++ [ls.tracks.length] }
      else ls := by
  simp only [handleQueueAdd]
  split
  · rcases lookup with _ | mf <;> rfl
  · rfl

theorem session_handleQueueRemove (ls : LiveSession) (sender : Participant) (qp : Int) :
    (handleQueueRemove ls sender qp).session =
      if isRemoteHolder ls sender then
        if qp < 0 ∨ (ls.queue.length : Int) ≤ qp then ls
        else if qp.toNat = ls.currentIndex then ls
        else
          { ls with
            queue := ls.queue.take qp.toNat ++ ls.queue.drop (qp.toNat + 1)
            currentIndex := if qp.toNat < ls.currentIndex then ls.currentIndex - 1
                            else ls.currentIndex }
      else ls := by
  simp only [handleQueueRemove]
  split
  · split
    · rfl
    · split <;> rfl
  · rfl

theorem session_handleQueueReorder (ls : LiveSession) (sender : Participant)
    (fromPos toPos : Int) :
    (handleQueueReorder ls sender fromPos toPos).session =
      if isRemoteHolder ls sender then
        if fromPos < 0 ∨ (ls.queue.length : Int) ≤ fromPos ∨
            toPos < 0 ∨ (ls.queue.length : Int) ≤ toPos then ls
        else
          { ls with
            queue :=
              (ls.queue.take fromPos.toNat ++ ls.queue.drop (fromPos.toNat + 1)).take
                  toPos.toNat ++
                [ls.queue.getD fromPos.toNat 0] ++
                (ls.queue.take fromPos.toNat ++ ls.queue.drop (fromPos.toNat + 1)).drop
                  toPos.toNat
            currentIndex :=
              if fromPos.toNat = ls.currentIndex then toPos.toNat
              else if fromPos.toNat < ls.currentIndex ∧ ls.currentIndex ≤ toPos.toNat then
                ls.currentIndex - 1
              else if ls.currentIndex < fromPos.toNat ∧ toPos.toNat ≤ ls.currentIndex then
                ls.currentIndex + 1
              else ls.currentIndex }
      else ls := by
  simp only [handleQueueReorder]
  split
  · split <;> rfl
  · rfl

theorem session_handleEndSession (ls : LiveSession) (sender : Participant) :
    (handleEndSession ls sender).session = ls := by
  simp only [handleEndSession]; split <;> rfl

/-! Invariant on `currentIndex` (spec data-model invariant 3, index part). -/

/-- IndexInv: `currentIndex` is 0 on an empty queue and in bounds otherwise. -/
def indexInv (ls : LiveSession) : Prop :=
  (ls.queue = [] → ls.currentIndex = 0) ∧
  (ls.queue ≠ [] → ls.currentIndex < ls.queue.length)

theorem indexInv_of_eq {ls ls' : LiveSession} (h : indexInv ls)
    (hq : ls'.queue = ls.queue) (hc : ls'.currentIndex = ls.currentIndex) :
    indexInv ls' := by
  obtain ⟨h0, hlt⟩ := h
  constructor
  · intro he; rw [hq] at he; rw [hc]; exact h0 he
  · intro hne; rw [hq] at hne; rw [hc, hq]; exact hlt hne

theorem indexInv_handleMessage (ls : LiveSession) (sender : Participant) (c : Command)
    (h : indexInv ls) : indexInv (HandleMessage ls sender c).session := by
  obtain ⟨h0, hlt⟩ := h
  cases c with
  | play =>
    simp only [HandleMessage]
    rw [session_handlePlay]
    split <;> exact indexInv_of_eq ⟨h0, hlt⟩ rfl rfl
  | pause =>
    simp only [HandleMessage]
    rw [session_handlePause]
    split <;> exact indexInv_of_eq ⟨h0, hlt⟩ rfl rfl
  | seek p =>
    simp only [HandleMessage]
    rw [session_handleSeek]
    split <;> exact indexInv_of_eq ⟨h0, hlt⟩ rfl rfl
  | skipNext =>
    simp only [HandleMessage]
    rw [session_handleSkipNext]
    split
    · split
      · rename_i hci
        constructor
        · intro he
          rw [he] at hci
          simp only [List.length_nil] at hci
          omega
        · intro _
          simp only [List.length_cons] at hci ⊢
          omega
      · exact ⟨h0, hlt⟩
    · exact ⟨h0, hlt⟩
  | skipPrev =>
    simp only [HandleMessage]
    rw [session_handleSkipPrev]
    split
    · split
      · rename_i hci
        constructor
        · intro he
          have := h0 he
          dsimp only
          omega
        · intro hne
          have := hlt hne
          dsimp only
          omega
      · exact ⟨h0, hlt⟩
    · exact ⟨h0, hlt⟩
  | sync p ti =>
    simp only [HandleMessage]
    rw [session_handleSync]
    split
    · constructor
      · intro he
        dsimp only at he ⊢
        simp only [he, List.length_nil]
        split
        · rename_i hcond
          omega
        · exact h0 he
      · intro hne
        dsimp only at hne ⊢
        split
        · rename_i hcond
          omega
        · exact hlt hne
    · exact ⟨h0, hlt⟩
  | passRemote pid =>
    simp only [HandleMessage]
    rw [session_handlePassRemote]
    split
    · split <;> exact indexInv_of_eq ⟨h0, hlt⟩ rfl rfl
    · exact ⟨h0, hlt⟩
  | requestRemote =>
    simp only [HandleMessage]
    rw [session_handleRequestRemote]
    exact ⟨h0, hlt⟩
  | acceptRemoteRequest pid =>
    simp only [HandleMessage]
    rw [session_handleAcceptRemoteRequest]
    split
    · split <;> exact indexInv_of_eq ⟨h0, hlt⟩ rfl rfl
    · exact ⟨h0, hlt⟩
  | queueAdd lookup =>
    simp only [HandleMessage]
    rw [session_handleQueueAdd]
    split
    · rcases lookup with _ | mf
      · exact ⟨h0, hlt⟩
      · constructor
        · intro he
          exact absurd he (by simp)
        · intro _
          simp only [List.length_append, List.length_singleton]
          by_cases hq : ls.queue = []
          · have := h0 hq
            omega
          · have := hlt hq
            omega
    · exact ⟨h0, hlt⟩
  | queueRemove qp =>
    simp only [HandleMessage]
    rw [session_handleQueueRemove]
    split
    · split
      · exact ⟨h0, hlt⟩
      · split
        · exact ⟨h0, hlt⟩
        · rename_i hrange hne
          have hqlen : qp.toNat < ls.queue.length := by omega
          have hql : ls.queue ≠ [] := by
            intro he
            rw [he] at hqlen
            simp at hqlen
          have hci := hlt hql
          constructor
          · intro he
            dsimp only at he ⊢
            have hlen := congrArg List.length he
            rw [splice_length hqlen] at hlen
            simp only [List.length_nil] at hlen
            split <;> omega
          · intro _
            dsimp only
            rw [splice_length hqlen]
            split <;> omega
    · exact ⟨h0, hlt⟩
  | queueReorder f t =>
    simp only [HandleMessage]
    rw [session_handleQueueReorder]
    split
    · split
      · exact ⟨h0, hlt⟩
      · rename_i hrange
        have hf : f.toNat < ls.queue.length := by omega
        have ht : t.toNat < ls.queue.length := by omega
        have hql : ls.queue ≠ [] := by
          intro he
          rw [he] at hf
          simp at hf
        have hci := hlt hql
        have hq1len : (ls.queue.take f.toNat ++ ls.queue.drop (f.toNat + 1)).length
            = ls.queue.length - 1 := splice_length hf
        have hlen2 : ((ls.queue.take f.toNat ++ ls.queue.drop (f.toNat + 1)).take t.toNat ++
            [ls.queue.getD f.toNat 0] ++
            (ls.queue.take f.toNat ++ ls.queue.drop (f.toNat + 1)).drop t.toNat).length
            = ls.queue.length := by
          simp only [List.length_append, List.length_singleton, List.length_take,
            List.length_drop, hq1len]
          omega
        constructor
        · intro he
          dsimp only at he ⊢
          have hlen := congrArg List.length he
          rw [hlen2] at hlen
          simp only [List.length_nil] at hlen
          exact absurd hf (by omega)
        · intro _
          dsimp only
          rw [hlen2]
          split
          · omega
          · split
            · omega
            · split <;> omega
    · exact ⟨h0, hlt⟩
  | endSession =>
    simp only [HandleMessage]
    rw [session_handleEndSession]
    exact ⟨h0, hlt⟩
  | unknown a =>
    exact ⟨h0, hlt⟩

theorem indexInv_leave (ls : LiveSession) (pid : String) (h : indexInv ls) :
    indexInv (Leave ls pid).1 := by
  simp only [Leave]
  rcases hfind : ls.participants.find? (fun q => q.id = pid) with _ | q <;> rw [hfind]
  · exact h
  · by_cases hlen : (ls.participants.filter (fun q => q.id ≠ pid)).length = 0
    · rw [if_pos hlen]
      exact indexInv_of_eq h rfl rfl
    · rw [if_neg hlen]
      exact indexInv_of_eq h rfl rfl

theorem indexInv_applyOp (ls : LiveSession) (op : Op) (h : indexInv ls) :
    indexInv (applyOp ls op) := by
  cases op with
  | join p => exact indexInv_of_eq h rfl rfl
  | leave pid => exact indexInv_leave ls pid h
  | command sender c => exact indexInv_handleMessage ls sender c h

theorem indexInv_applyOps (ls : LiveSession) (ops : List Op) (h : indexInv ls) :
    indexInv (applyOps ls ops) := by
  induction ops generalizing ls with
  | nil => exact h
  | cons op rest ih => exact ih _ (indexInv_applyOp ls op h)

theorem indexInv_createSession (sid uid fmt : String) (mbr : Int)
    (files : List MediaFile) : indexInv (CreateSession sid uid fmt mbr files) := by
  constructor
  · intro _; rfl
  · intro hne
    simp only [CreateSession] at hne ⊢
    rw [List.length_range]
    rcases files with _ | ⟨a, l⟩
    · simp at hne
    · simp

/-! Claim theorems. -/

/-- C1 (amended): for every session state and every seek command from the
remote holder with a numeric position p, after the command the session's
position equals p exactly — the code performs no clamping, so a position
greater than the current track's duration (or a negative position) is stored
as-is. -/
theorem C1_seek_sets_position_unclamped (ls : LiveSession) (sender : Participant)
    (p : Rat) (h : ls.remoteHolder = sender.id) :
    (HandleMessage ls sender (Command.seek p)).session.position = p := by
  have hb : isRemoteHolder ls sender = true := by simp [isRemoteHolder, h]
  simp only [HandleMessage]
  rw [session_handleSeek, if_pos hb]

/-- C1 (witness): the theorem applied to the demo session at position 42. -/
theorem C1_seek_witness :
    (HandleMessage demoSession hostP (Command.seek 42)).session.position = 42 :=
  C1_seek_sets_position_unclamped demoSession hostP 42 (by decide)

/-- C1 (counterexample): in the demo session the current track has duration 10,
yet a holder seek to 42 stores position 42, not clamp(42, 0, 10) = 10 — the
claimed clamping does not happen. -/
theorem C1_seek_clamp_counterexample :
    (HandleMessage demoSession hostP (Command.seek 42)).session.position = 42 ∧
    (currentTrack demoSession).map TrackInfo.duration = some 10 ∧
    specClamp 42 0 10 = 10 ∧ (42 : Rat) ≠ 10 := by
  refine ⟨?_, ?_, ?_, ?_⟩ <;> decide

/-- C2 (amended): after every operation sequence on a freshly created session,
if the queue is empty then currentIndex = 0; the isPlaying half of the claimed
invariant fails — a play command from the remote holder while the queue is
empty is not a no-op and sets isPlaying to true (see the counterexample). -/
theorem C2_empty_queue_zero_index (sid uid fmt : String) (mbr : Int)
    (files : List MediaFile) (ops : List Op)
    (he : (applyOps (CreateSession sid uid fmt mbr files) ops).queue = []) :
    (applyOps (CreateSession sid uid fmt mbr files) ops).currentIndex = 0 :=
  (indexInv_applyOps _ ops (indexInv_createSession sid uid fmt mbr files)).1 he

/-- C2 (witness): the theorem applied to a track-less session after a join and
a play command. -/
theorem C2_empty_queue_zero_index_witness :
    (applyOps (CreateSession "E" "u" "" 0 [])
      [Op.join hostP, Op.command hostP Command.play]).currentIndex = 0 :=
  C2_empty_queue_zero_index "E" "u" "" 0 []
    [Op.join hostP, Op.command hostP Command.play] (by decide)

/-- C2 (counterexample): with an empty queue, a play command from the remote
holder sets isPlaying to true — it is not a no-op, and the claimed invariant
"queue empty implies isPlaying = false" is violated right after it. -/
theorem C2_play_empty_counterexample :
    emptySession.queue = [] ∧
    (HandleMessage emptySession hostP Command.play).session.queue = [] ∧
    (HandleMessage emptySession hostP Command.play).session.isPlaying = true := by
  refine ⟨?_, ?_, ?_⟩ <;> decide

/-- C3: every holder-only command (play, pause, seek, skip_next, skip_prev,
pass_remote, accept_remote_request, queue_add, queue_remove, queue_reorder,
end_session) from a participant who is not the remote holder leaves the
session unchanged, does not evict it, and emits exactly one targeted error to
the sender and nothing else; sync from a non-holder is silently ignored with
no error and no state change. -/
theorem C3_nonholder_rejected (ls : LiveSession) (sender : Participant) (c : Command)
    (hns : ls.remoteHolder ≠ sender.id) :
    (isHolderOnly c = true →
      (HandleMessage ls sender c).session = ls ∧
      (HandleMessage ls sender c).removeFromHub = false ∧
      ∃ m, (HandleMessage ls sender c).events = [sendError sender m]) ∧
    (∀ p ti, HandleMessage ls sender (Command.sync p ti) = ⟨ls, [], false⟩) := by
  have hb : ¬ (isRemoteHolder ls sender = true) := by
    simp [isRemoteHolder, hns]
  constructor
  · intro hc
    cases c with
    | play =>
      simp only [HandleMessage, handlePlay]
      rw [if_neg hb]
      exact ⟨rfl, rfl, _, rfl⟩
    | pause =>
      simp only [HandleMessage, handlePause]
      rw [if_neg hb]
      exact ⟨rfl, rfl, _, rfl⟩
    | seek p =>
      simp only [HandleMessage, handleSeek]
      rw [if_neg hb]
      exact ⟨rfl, rfl, _, rfl⟩
    | skipNext =>
      simp only [HandleMessage, handleSkipNext]
      rw [if_neg hb]
      exact ⟨rfl, rfl, _, rfl⟩
    | skipPrev =>
      simp only [HandleMessage, handleSkipPrev]
      rw [if_neg hb]
      exact ⟨rfl, rfl, _, rfl⟩
    | sync p ti => simp [isHolderOnly] at hc
    | passRemote pid =>
      simp only [HandleMessage, handlePassRemote]
      rw [if_neg hb]
      exact ⟨rfl, rfl, _, rfl⟩
    | requestRemote => simp [isHolderOnly] at hc
    | acceptRemoteRequest pid =>
      simp only [HandleMessage, handleAcceptRemoteRequest]
      rw [if_neg hb]
      exact ⟨rfl, rfl, _, rfl⟩
    | queueAdd lookup =>
      simp only [HandleMessage, handleQueueAdd]
      rw [if_neg hb]
      exact ⟨rfl, rfl, _, rfl⟩
    | queueRemove qp =>
      simp only [HandleMessage, handleQueueRemove]
      rw [if_neg hb]
      exact ⟨rfl, rfl, _, rfl⟩
    | queueReorder f t =>
      simp only [HandleMessage, handleQueueReorder]
      rw [if_neg hb]
      exact ⟨rfl, rfl, _, rfl⟩
    | endSession =>
      simp only [HandleMessage, handleEndSession]
      rw [if_neg hb]
      exact ⟨rfl, rfl, _, rfl⟩
    | unknown a => simp [isHolderOnly] at hc
  · intro p ti
    simp only [HandleMessage, handleSync]
    rw [if_neg hb]

/-- C3 (witness): the theorem applied to the guest (a non-holder) and pause. -/
theorem C3_nonholder_rejected_witness :
    (isHolderOnly Command.pause = true →
      (HandleMessage demoSession guestP Command.pause).session = demoSession ∧
      (HandleMessage demoSession guestP Command.pause).removeFromHub = false ∧
      ∃ m, (HandleMessage demoSession guestP Command.pause).events =
        [sendError guestP m]) ∧
    (∀ p ti, HandleMessage demoSession guestP (Command.sync p ti) =
      ⟨demoSession, [], false⟩) :=
  C3_nonholder_rejected demoSession guestP Command.pause (by decide)

/-- C9: when the remote holder issues end_session, the handler marks the
session for hub eviction and emits, for every connected participant, an
error-typed message with action session_ended and a connection close; after
the hub removal, GetSession for that session ID returns none. -/
theorem C9_end_session (h : Hub) (ls : LiveSession) (sender : Participant)
    (hh : ls.remoteHolder = sender.id) :
    (HandleMessage ls sender Command.endSession).removeFromHub = true ∧
    (∀ p ∈ ls.participants,
      Event.send p.id ⟨"error", "session_ended", MsgPayload.empty⟩ ∈
        (HandleMessage ls sender Command.endSession).events ∧
      Event.closeConn p.id ∈ (HandleMessage ls sender Command.endSession).events) ∧
    (h.removeSession ls.sessionID).GetSession ls.sessionID = none := by
  have hb : isRemoteHolder ls sender = true := by simp [isRemoteHolder, hh]
  refine ⟨?_, ?_, ?_⟩
  · simp only [HandleMessage, handleEndSession]
    rw [if_pos hb]
  · intro p hp
    constructor <;>
    · simp only [HandleMessage, handleEndSession]
      rw [if_pos hb]
      refine List.mem_flatMap.mpr ⟨p, hp, ?_⟩
      simp
  · simp only [Hub.GetSession, Hub.removeSession]
    rw [List.find?_eq_none.mpr]
    · rfl
    · intro kv hkv
      have hmem := List.mem_filter.mp hkv
      simp only [decide_eq_true_eq] at hmem ⊢
      exact hmem.2

/-- C9 (witness): the theorem applied to a one-session hub and the host. -/
theorem C9_end_session_witness :
    (HandleMessage demoSession hostP Command.endSession).removeFromHub = true ∧
    (∀ p ∈ demoSession.participants,
      Event.send p.id ⟨"error", "session_ended", MsgPayload.empty⟩ ∈
        (HandleMessage demoSession hostP Command.endSession).events ∧
      Event.closeConn p.id ∈
        (HandleMessage demoSession hostP Command.endSession).events) ∧
    (Hub.removeSession ⟨[("S", demoSession)]⟩ demoSession.sessionID).GetSession
      demoSession.sessionID = none :=
  C9_end_session ⟨[("S", demoSession)]⟩ demoSession hostP (by decide)

/-- C10: a queue_reorder command from the remote holder with from = to = i for
any in-range i leaves the whole session state (queue, currentIndex, position,
isPlaying, everything) exactly as it was. -/
theorem C10_reorder_self_identity (ls : LiveSession) (sender : Participant) (i : Int)
    (hh : ls.remoteHolder = sender.id) (h0 : 0 ≤ i) (hl : i < (ls.queue.length : Int)) :
    (HandleMessage ls sender (Command.queueReorder i i)).session = ls := by
  have hb : isRemoteHolder ls sender = true := by simp [isRemoteHolder, hh]
  simp only [HandleMessage]
  rw [session_handleQueueReorder, if_pos hb, if_neg (by omega)]
  have hf : i.toNat < ls.queue.length := by omega
  have htake : (ls.queue.take i.toNat ++ ls.queue.drop (i.toNat + 1)).take i.toNat
      = ls.queue.take i.toNat := List.take_left' (by rw [List.length_take]; omega)
  have hdrop : (ls.queue.take i.toNat ++ ls.queue.drop (i.toNat + 1)).drop i.toNat
      = ls.queue.drop (i.toNat + 1) := List.drop_left' (by rw [List.length_take]; omega)
  have hitem : ls.queue.getD i.toNat 0 = ls.queue[i.toNat] := by
    rw [List.getD_eq_getElem?_getD, List.getElem?_eq_getElem hf]
    rfl
  have hqueue : (ls.queue.take i.toNat ++ ls.queue.drop (i.toNat + 1)).take i.toNat ++
      [ls.queue.getD i.toNat 0] ++
      (ls.queue.take i.toNat ++ ls.queue.drop (i.toNat + 1)).drop i.toNat = ls.queue := by
    rw [htake, hdrop, hitem, List.append_assoc]
    rw [show [ls.queue[i.toNat]] ++ ls.queue.drop (i.toNat + 1)
        = ls.queue[i.toNat] :: ls.queue.drop (i.toNat + 1) from rfl]
    rw [List.getElem_cons_drop ls.queue i.toNat hf, List.take_append_drop]
  have hci : (if i.toNat = ls.currentIndex then i.toNat
      else if i.toNat < ls.currentIndex ∧ ls.currentIndex ≤ i.toNat then
        ls.currentIndex - 1
      else if ls.currentIndex < i.toNat ∧ i.toNat ≤ ls.currentIndex then
        ls.currentIndex + 1
      else ls.currentIndex) = ls.currentIndex := by
    split
    · omega
    · split
      · omega
      · split <;> omega
  rw [hqueue, hci]

/-- C10 (witness): the theorem applied to the demo session at position 1. -/
theorem C10_reorder_self_identity_witness :
    (HandleMessage demoSession hostP (Command.queueReorder 1 1)).session = demoSession :=
  C10_reorder_self_identity demoSession hostP 1 (by decide) (by decide) (by decide)

/-- C5: queue_remove from the remote holder with position p: out of range or
equal to currentIndex gives an error to the sender and no state change;
otherwise the element at p is spliced out and, when p < currentIndex, the new
currentIndex is the old one minus 1 and the current track resolved through
`tracks[queue[currentIndex]]` is unchanged. -/
theorem C5_queue_remove (ls : LiveSession) (sender : Participant) (qp : Int)
    (hh : ls.remoteHolder = sender.id) :
    ((qp < 0 ∨ (ls.queue.length : Int) ≤ qp ∨ qp = (ls.currentIndex : Int)) →
      (HandleMessage ls sender (Command.queueRemove qp)).session = ls ∧
      ∃ m, (HandleMessage ls sender (Command.queueRemove qp)).events =
        [sendError sender m]) ∧
    (¬ (qp < 0 ∨ (ls.queue.length : Int) ≤ qp ∨ qp = (ls.currentIndex : Int)) →
      (HandleMessage ls sender (Command.queueRemove qp)).session.queue =
        ls.queue.take qp.toNat ++ ls.queue.drop (qp.toNat + 1) ∧
      (HandleMessage ls sender (Command.queueRemove qp)).session.position =
        ls.position ∧
      (HandleMessage ls sender (Command.queueRemove qp)).session.isPlaying =
        ls.isPlaying ∧
      (qp.toNat < ls.currentIndex →
        (HandleMessage ls sender (Command.queueRemove qp)).session.currentIndex =
          ls.currentIndex - 1 ∧
        currentTrack (HandleMessage ls sender (Command.queueRemove qp)).session =
          currentTrack ls)) := by
  have hb : isRemoteHolder ls sender = true := by simp [isRemoteHolder, hh]
  constructor
  · intro herr
    simp only [HandleMessage, handleQueueRemove]
    rw [if_pos hb]
    by_cases hr : qp < 0 ∨ (ls.queue.length : Int) ≤ qp
    · rw [if_pos hr]
      exact ⟨rfl, _, rfl⟩
    · rw [if_neg hr, if_pos (by omega)]
      exact ⟨rfl, _, rfl⟩
  · intro hok
    have hr : ¬ (qp < 0 ∨ (ls.queue.length : Int) ≤ qp) := by omega
    have hne : ¬ (qp.toNat = ls.currentIndex) := by omega
    have hqp : qp.toNat < ls.queue.length := by omega
    simp only [HandleMessage, handleQueueRemove]
    rw [if_pos hb, if_neg hr, if_neg hne]
    refine ⟨rfl, rfl, rfl, ?_⟩
    intro hlt
    constructor
    · rw [if_pos hlt]
    · simp only [currentTrack]
      rw [if_pos hlt, splice_getElem?_of_ge hqp (by omega)]
      have heq : ls.currentIndex - 1 + 1 = ls.currentIndex := by omega
      rw [heq]

/-- C5 (witness): the theorem applied to the three-track session with
currentIndex 1, removing position 0. -/
theorem C5_queue_remove_witness :
    ((0 < (0 : Int) ∨ (demoSession3.queue.length : Int) ≤ 0 ∨
        (0 : Int) = (demoSession3.currentIndex : Int)) →
      (HandleMessage demoSession3 hostP (Command.queueRemove 0)).session =
        demoSession3 ∧
      ∃ m, (HandleMessage demoSession3 hostP (Command.queueRemove 0)).events =
        [sendError hostP m]) ∧
    (¬ ((0 : Int) < 0 ∨ (demoSession3.queue.length : Int) ≤ 0 ∨
        (0 : Int) = (demoSession3.currentIndex : Int)) →
      (HandleMessage demoSession3 hostP (Command.queueRemove 0)).session.queue =
        demoSession3.queue.take (0 : Int).toNat ++
          demoSession3.queue.drop ((0 : Int).toNat + 1) ∧
      (HandleMessage demoSession3 hostP (Command.queueRemove 0)).session.position =
        demoSession3.position ∧
      (HandleMessage demoSession3 hostP (Command.queueRemove 0)).session.isPlaying =
        demoSession3.isPlaying ∧
      ((0 : Int).toNat < demoSession3.currentIndex →
        (HandleMessage demoSession3 hostP
          (Command.queueRemove 0)).session.currentIndex =
          demoSession3.currentIndex - 1 ∧
        currentTrack (HandleMessage demoSession3 hostP
          (Command.queueRemove 0)).session = currentTrack demoSession3)) :=
  C5_queue_remove demoSession3 hostP 0 (by decide)

/-- MovePreservesCurrent: the reorder splice-and-insert together with the
code's currentIndex adjustment keeps the queue entry designated by
currentIndex pointing at the same value. -/
theorem move_preserves_current {α} (q : List α) (d : α) (fN tN ci : Nat)
    (hf : fN < q.length) (ht : tN < q.length) (hci : ci < q.length) :
    ((q.take fN ++ q.drop (fN + 1)).take tN ++ [q.getD fN d] ++
      (q.take fN ++ q.drop (fN + 1)).drop tN)[
        (if fN = ci then tN
         else if fN < ci ∧ ci ≤ tN then ci - 1
         else if ci < fN ∧ tN ≤ ci then ci + 1
         else ci)]? = q[ci]? := by
  have hq1 : (q.take fN ++ q.drop (fN + 1)).length = q.length - 1 := splice_length hf
  have htq1 : tN ≤ (q.take fN ++ q.drop (fN + 1)).length := by omega
  have hitem : some (q.getD fN d) = q[fN]? := by
    rw [List.getD_eq_getElem?_getD, List.getElem?_eq_getElem hf]
    rfl
  split
  · rename_i h1
    rw [insert_getElem?_self htq1, hitem, h1]
  · rename_i h1
    split
    · rename_i h2
      rw [insert_getElem?_of_lt htq1 (by omega), splice_getElem?_of_ge hf (by omega)]
      have heq : ci - 1 + 1 = ci := by omega
      rw [heq]
    · rename_i h2
      split
      · rename_i h3
        rw [insert_getElem?_of_gt htq1 (by omega)]
        have heq : ci + 1 - 1 = ci := by omega
        rw [heq, splice_getElem?_of_lt hf (by omega)]
      · rename_i h3
        by_cases h4 : fN < ci
        · rw [insert_getElem?_of_gt htq1 (by omega), splice_getElem?_of_ge hf (by omega)]
          have heq : ci - 1 + 1 = ci := by omega
          rw [heq]
        · rw [insert_getElem?_of_lt htq1 (by omega), splice_getElem?_of_lt hf (by omega)]

/-- C6: queue_reorder from the remote holder with in-range from and to moves
the element and adjusts currentIndex by the four-case rule, so the current
track resolved through `tracks[queue[currentIndex]]` is unchanged. -/
theorem C6_queue_reorder (ls : LiveSession) (sender : Participant) (f t : Int)
    (hh : ls.remoteHolder = sender.id) (hf0 : 0 ≤ f)
    (hfl : f < (ls.queue.length : Int)) (ht0 : 0 ≤ t)
    (htl : t < (ls.queue.length : Int))
    (hci : ls.currentIndex < ls.queue.length) :
    (HandleMessage ls sender (Command.queueReorder f t)).session.currentIndex =
      (if f.toNat = ls.currentIndex then t.toNat
       else if f.toNat < ls.currentIndex ∧ ls.currentIndex ≤ t.toNat then
         ls.currentIndex - 1
       else if ls.currentIndex < f.toNat ∧ t.toNat ≤ ls.currentIndex then
         ls.currentIndex + 1
       else ls.currentIndex) ∧
    currentTrack (HandleMessage ls sender (Command.queueReorder f t)).session =
      currentTrack ls := by
  have hb : isRemoteHolder ls sender = true := by simp [isRemoteHolder, hh]
  simp only [HandleMessage]
  rw [session_handleQueueReorder, if_pos hb, if_neg (by omega)]
  refine ⟨rfl, ?_⟩
  simp only [currentTrack]
  rw [move_preserves_current ls.queue 0 f.toNat t.toNat ls.currentIndex
    (by omega) (by omega) hci]

/-- C6 (witness): the theorem applied to the three-track session with
currentIndex 1, moving position 2 to position 0 (currentIndex becomes 2). -/
theorem C6_queue_reorder_witness :
    (HandleMessage demoSession3 hostP
      (Command.queueReorder 2 0)).session.currentIndex =
      (if (2 : Int).toNat = demoSession3.currentIndex then (0 : Int).toNat
       else if (2 : Int).toNat < demoSession3.currentIndex ∧
           demoSession3.currentIndex ≤ (0 : Int).toNat then
         demoSession3.currentIndex - 1
       else if demoSession3.currentIndex < (2 : Int).toNat ∧
           (0 : Int).toNat ≤ demoSession3.currentIndex then
         demoSession3.currentIndex + 1
       else demoSession3.currentIndex) ∧
    currentTrack (HandleMessage demoSession3 hostP
      (Command.queueReorder 2 0)).session = currentTrack demoSession3 :=
  C6_queue_reorder demoSession3 hostP 2 0 (by decide) (by decide) (by decide)
    (by decide) (by decide) (by decide)

/-! Queue validity invariant (spec data-model invariant 2). -/

/-- QueueInv: every queue entry is a valid index into tracks and none repeats. -/
def queueInv (ls : LiveSession) : Prop :=
  (∀ i ∈ ls.queue, i < ls.tracks.length) ∧ ls.queue.Nodup

theorem queueInv_of_eq {ls ls' : LiveSession} (h : queueInv ls)
    (hq : ls'.queue = ls.queue) (ht : ls'.tracks = ls.tracks) : queueInv ls' := by
  obtain ⟨hv, hn⟩ := h
  constructor
  · intro i hi
    rw [hq] at hi
    rw [ht]
    exact hv i hi
  · rw [hq]
    exact hn

theorem queueInv_handleMessage (ls : LiveSession) (sender : Participant) (c : Command)
    (h : queueInv ls) : queueInv (HandleMessage ls sender c).session := by
  obtain ⟨hv, hn⟩ := h
  cases c with
  | play =>
    simp only [HandleMessage]
    rw [session_handlePlay]
    split <;> exact queueInv_of_eq ⟨hv, hn⟩ rfl rfl
  | pause =>
    simp only [HandleMessage]
    rw [session_handlePause]
    split <;> exact queueInv_of_eq ⟨hv, hn⟩ rfl rfl
  | seek p =>
    simp only [HandleMessage]
    rw [session_handleSeek]
    split <;> exact queueInv_of_eq ⟨hv, hn⟩ rfl rfl
  | skipNext =>
    simp only [HandleMessage]
    rw [session_handleSkipNext]
    split
    · split <;> exact queueInv_of_eq ⟨hv, hn⟩ rfl rfl
    · exact ⟨hv, hn⟩
  | skipPrev =>
    simp only [HandleMessage]
    rw [session_handleSkipPrev]
    split
    · split <;> exact queueInv_of_eq ⟨hv, hn⟩ rfl rfl
    · exact ⟨hv, hn⟩
  | sync p ti =>
    simp only [HandleMessage]
    rw [session_handleSync]
    split <;> exact queueInv_of_eq ⟨hv, hn⟩ rfl rfl
  | passRemote pid =>
    simp only [HandleMessage]
    rw [session_handlePassRemote]
    split
    · split <;> exact queueInv_of_eq ⟨hv, hn⟩ rfl rfl
    · exact ⟨hv, hn⟩
  | requestRemote =>
    simp only [HandleMessage]
    rw [session_handleRequestRemote]
    exact ⟨hv, hn⟩
  | acceptRemoteRequest pid =>
    simp only [HandleMessage]
    rw [session_handleAcceptRemoteRequest]
    split
    · split <;> exact queueInv_of_eq ⟨hv, hn⟩ rfl rfl
    · exact ⟨hv, hn⟩
  | queueAdd lookup =>
    simp only [HandleMessage]
    rw [session_handleQueueAdd]
    split
    · rcases lookup with _ | mf
      · exact ⟨hv, hn⟩
      · constructor
        · intro i hi
          dsimp only at hi ⊢
          rw [List.mem_append] at hi
          rw [List.length_append, List.length_singleton]
          rcases hi with hi | hi
          · have := hv i hi
            omega
          · simp only [List.mem_singleton] at hi
            omega
        · dsimp only
          rw [List.nodup_append]
          refine ⟨hn, List.nodup_singleton _, ?_⟩
          intro i hi hmem
          simp only [List.mem_singleton] at hmem
          have := hv i hi
          omega
    · exact ⟨hv, hn⟩
  | queueRemove qp =>
    simp only [HandleMessage]
    rw [session_handleQueueRemove]
    split
    · split
      · exact ⟨hv, hn⟩
      · split
        · exact ⟨hv, hn⟩
        · have hsub : List.Sublist
              (ls.queue.take qp.toNat ++ ls.queue.drop (qp.toNat + 1)) ls.queue := by
            rw [← List.eraseIdx_eq_take_drop_succ]
            exact List.eraseIdx_sublist ls.queue qp.toNat
          constructor
          · intro i hi
            dsimp only at hi ⊢
            exact hv i (hsub.subset hi)
          · dsimp only
            exact hn.sublist hsub
    · exact ⟨hv, hn⟩
  | queueReorder f t =>
    simp only [HandleMessage]
    rw [session_handleQueueReorder]
    split
    · split
      · exact ⟨hv, hn⟩
      · rename_i hrange
        have hf : f.toNat < ls.queue.length := by omega
        have hitem : some (ls.queue.getD f.toNat 0) = ls.queue[f.toNat]? := by
          rw [List.getD_eq_getElem?_getD, List.getElem?_eq_getElem hf]
          rfl
        have hperm : List.Perm
            ((ls.queue.take f.toNat ++ ls.queue.drop (f.toNat + 1)).take t.toNat ++
              [ls.queue.getD f.toNat 0] ++
              (ls.queue.take f.toNat ++ ls.queue.drop (f.toNat + 1)).drop t.toNat)
            ls.queue := by
          have h1 := insert_perm (ls.queue.take f.toNat ++ ls.queue.drop (f.toNat + 1))
            (ls.queue.getD f.toNat 0) t.toNat
          have h2 := splice_perm ls.queue f.toNat hf
          have h3 : ls.queue.getD f.toNat 0 = ls.queue[f.toNat] := by
            have := List.getElem?_eq_getElem hf
            rw [← hitem] at this
            exact Option.some_injective _ this
          rw [← h3] at h2
          exact h1.trans h2.symm
        constructor
        · intro i hi
          dsimp only at hi ⊢
          exact hv i (hperm.subset hi)
        · dsimp only
          exact hperm.symm.nodup hn
    · exact ⟨hv, hn⟩
  | endSession =>
    simp only [HandleMessage]
    rw [session_handleEndSession]
    exact ⟨hv, hn⟩
  | unknown a =>
    exact ⟨hv, hn⟩

theorem queueInv_leave (ls : LiveSession) (pid : String) (h : queueInv ls) :
    queueInv (Leave ls pid).1 := by
  simp only [Leave]
  rcases hfind : ls.participants.find? (fun q => q.id = pid) with _ | q <;> rw [hfind]
  · exact h
  · by_cases hlen : (ls.participants.filter (fun q => q.id ≠ pid)).length = 0
    · rw [if_pos hlen]
      exact queueInv_of_eq h rfl rfl
    · rw [if_neg hlen]
      exact queueInv_of_eq h rfl rfl

theorem queueInv_applyOp (ls : LiveSession) (op : Op) (h : queueInv ls) :
    queueInv (applyOp ls op) := by
  cases op with
  | join p => exact queueInv_of_eq h rfl rfl
  | leave pid => exact queueInv_leave ls pid h
  | command sender c => exact queueInv_handleMessage ls sender c h

theorem queueInv_applyOps (ls : LiveSession) (ops : List Op) (h : queueInv ls) :
    queueInv (applyOps ls ops) := by
  induction ops generalizing ls with
  | nil => exact h
  | cons op rest ih => exact ih _ (queueInv_applyOp ls op h)

theorem queueInv_createSession (sid uid fmt : String) (mbr : Int)
    (files : List MediaFile) : queueInv (CreateSession sid uid fmt mbr files) := by
  constructor
  · intro i hi
    simp only [CreateSession] at hi ⊢
    rw [List.length_map]
    exact List.mem_range.mp hi
  · exact List.nodup_range _

/-- C7: after any sequence of operations on a freshly created session, every
entry of queue is a valid index into tracks and no index occurs twice. -/
theorem C7_queue_entries_valid_nodup (sid uid fmt : String) (mbr : Int)
    (files : List MediaFile) (ops : List Op) :
    (∀ i ∈ (applyOps (CreateSession sid uid fmt mbr files) ops).queue,
      i < (applyOps (CreateSession sid uid fmt mbr files) ops).tracks.length) ∧
    (applyOps (CreateSession sid uid fmt mbr files) ops).queue.Nodup :=
  queueInv_applyOps _ ops (queueInv_createSession sid uid fmt mbr files)

/-- C7 (witness): the theorem evaluated on a concrete session after a queue
add, a removal and a reorder. -/
theorem C7_queue_entries_valid_nodup_witness :
    (∀ i ∈ (applyOps (CreateSession "S" "u" "" 0 [mf0, mf1])
        [Op.join hostP, Op.command hostP (Command.queueAdd (some mf2)),
         Op.command hostP (Command.queueRemove 1),
         Op.command hostP (Command.queueReorder 0 1)]).queue,
      i < (applyOps (CreateSession "S" "u" "" 0 [mf0, mf1])
        [Op.join hostP, Op.command hostP (Command.queueAdd (some mf2)),
         Op.command hostP (Command.queueRemove 1),
         Op.command hostP (Command.queueReorder 0 1)]).tracks.length) ∧
    (applyOps (CreateSession "S" "u" "" 0 [mf0, mf1])
        [Op.join hostP, Op.command hostP (Command.queueAdd (some mf2)),
         Op.command hostP (Command.queueRemove 1),
         Op.command hostP (Command.queueReorder 0 1)]).queue.Nodup :=
  C7_queue_entries_valid_nodup "S" "u" "" 0 [mf0, mf1]
    [Op.join hostP, Op.command hostP (Command.queueAdd (some mf2)),
     Op.command hostP (Command.queueRemove 1),
     Op.command hostP (Command.queueReorder 0 1)]

/-! Remote-holder membership invariant (spec data-model invariant 1). -/

theorem foldl_oldest_spec (ps : List Participant) (o : Participant) :
    ∃ q, ps.foldl (fun oldest p =>
        match oldest with
        | none => some p
        | some o2 => if p.joinedAt < o2.joinedAt then some p else oldest) (some o)
          = some q ∧
      (q = o ∨ q ∈ ps) ∧ q.joinedAt ≤ o.joinedAt ∧
      ∀ r ∈ ps, q.joinedAt ≤ r.joinedAt := by
  induction ps generalizing o with
  | nil =>
    refine ⟨o, rfl, Or.inl rfl, Nat.le_refl _, ?_⟩
    intro r hr
    cases hr
  | cons p rest ih =>
    rw [List.foldl_cons]
    dsimp only
    by_cases hpo : p.joinedAt < o.joinedAt
    · rw [if_pos hpo]
      obtain ⟨q, hq, hmem, hle, hall⟩ := ih p
      refine ⟨q, hq, ?_, by omega, ?_⟩
      · rcases hmem with hh | hh
        · exact Or.inr (hh ▸ List.mem_cons_self _ _)
        · exact Or.inr (List.mem_cons_of_mem _ hh)
      · intro r hr
        rcases List.mem_cons.mp hr with hh | hh
        · subst hh; exact hle
        · exact hall r hh
    · rw [if_neg hpo]
      obtain ⟨q, hq, hmem, hle, hall⟩ := ih o
      refine ⟨q, hq, ?_, hle, ?_⟩
      · rcases hmem with hh | hh
        · exact Or.inl hh
        · exact Or.inr (List.mem_cons_of_mem _ hh)
      · intro r hr
        rcases List.mem_cons.mp hr with hh | hh
        · subst hh; omega
        · exact hall r hh

theorem findLongestConnected_spec (ps : List Participant) (hne : ps ≠ []) :
    ∃ q ∈ ps, findLongestConnected ps = q.id ∧
      ∀ r ∈ ps, q.joinedAt ≤ r.joinedAt := by
  rcases ps with _ | ⟨p, rest⟩
  · exact absurd rfl hne
  · obtain ⟨q, hq, hmem, hle, hall⟩ := foldl_oldest_spec rest p
    refine ⟨q, ?_, ?_, ?_⟩
    · rcases hmem with hh | hh
      · rw [hh]; exact List.mem_cons_self _ _
      · exact List.mem_cons_of_mem _ hh
    · simp only [findLongestConnected, List.foldl_cons]
      rw [hq]
    · intro r hr
      rcases List.mem_cons.mp hr with hh | hh
      · subst hh; exact hle
      · exact hall r hh

/-- HolderInv: the remote holder is empty iff no participants, all participant
IDs are non-empty, and otherwise the holder names a participant. -/
def holderInv (ls : LiveSession) : Prop :=
  (ls.remoteHolder = "" ↔ ls.participants = []) ∧
  (∀ q ∈ ls.participants, q.id ≠ "") ∧
  (ls.participants ≠ [] → ∃ q ∈ ls.participants, q.id = ls.remoteHolder)

theorem holderInv_of_eq {ls ls' : LiveSession} (h : holderInv ls)
    (hp : ls'.participants = ls.participants)
    (hr : ls'.remoteHolder = ls.remoteHolder) : holderInv ls' := by
  obtain ⟨hiff, hids, hex⟩ := h
  refine ⟨?_, ?_, ?_⟩
  · rw [hp, hr]; exact hiff
  · rw [hp]; exact hids
  · rw [hp, hr]; exact hex

theorem holderInv_join (ls : LiveSession) (p : Participant) (h : holderInv ls)
    (hpid : p.id ≠ "") : holderInv (Join ls p) := by
  obtain ⟨hiff, hids, hex⟩ := h
  have hne : ls.participants.filter (fun q => q.id ≠ p.id) ++ [p] ≠ [] := by
    simp
  refine ⟨?_, ?_, ?_⟩
  · simp only [Join]
    constructor
    · intro hh
      exfalso
      split at hh
      · exact hpid hh
      · rename_i hcond
        rw [not_or] at hcond
        exact hcond.1 hh
    · intro hh
      exact absurd hh hne
  · intro q hq
    simp only [Join] at hq
    rw [List.mem_append] at hq
    rcases hq with hq | hq
    · exact hids q (List.mem_of_mem_filter hq)
    · rw [List.mem_singleton] at hq
      subst hq
      exact hpid
  · intro _
    simp only [Join]
    by_cases hcond : ls.remoteHolder = "" ∨ p.isHost = true
    · refine ⟨p, ?_, ?_⟩
      · rw [List.mem_append, List.mem_singleton]
        exact Or.inr rfl
      · rw [if_pos hcond]
    · rw [if_neg hcond]
      rw [not_or] at hcond
      have hpsne : ls.participants ≠ [] := fun he => hcond.1 (hiff.mpr he)
      obtain ⟨q, hq, hqid⟩ := hex hpsne
      by_cases hqp : q.id = p.id
      · refine ⟨p, ?_, ?_⟩
        · rw [List.mem_append, List.mem_singleton]
          exact Or.inr rfl
        · rw [← hqp]
          exact hqid
      · refine ⟨q, ?_, hqid⟩
        rw [List.mem_append]
        exact Or.inl (List.mem_filter.mpr ⟨hq, by simpa using hqp⟩)

theorem holderInv_leave (ls : LiveSession) (pid : String) (h : holderInv ls) :
    holderInv (Leave ls pid).1 := by
  obtain ⟨hiff, hids, hex⟩ := h
  simp only [Leave]
  rcases hf : ls.participants.find? (fun q => q.id = pid) with _ | w
  · rw [hf]
    exact ⟨hiff, hids, hex⟩
  · rw [hf]
    have hw := List.mem_of_find?_eq_some hf
    have hwid : w.id = pid := by simpa using List.find?_some hf
    have hmain : holderInv { ls with
        participants := ls.participants.filter (fun q => q.id ≠ pid)
        remoteHolder := if ls.remoteHolder = pid then
            findLongestConnected (ls.participants.filter (fun q => q.id ≠ pid))
          else ls.remoteHolder } := by
      by_cases hhold : ls.remoteHolder = pid
      · rw [if_pos hhold]
        by_cases hps : ls.participants.filter (fun q => q.id ≠ pid) = []
        · rw [hps]
          refine ⟨?_, ?_, ?_⟩
          · exact ⟨fun _ => rfl, fun _ => rfl⟩
          · intro q hq
            cases hq
          · intro hne2
            exact absurd rfl hne2
        · obtain ⟨q, hqmem, hqid, hmin⟩ := findLongestConnected_spec _ hps
          refine ⟨?_, ?_, ?_⟩
          · constructor
            · intro hh
              exact absurd (hqid.symm.trans hh)
                (hids q (List.mem_of_mem_filter hqmem))
            · intro hh
              exact absurd hh hps
          · intro r hr
            exact hids r (List.mem_of_mem_filter hr)
          · intro _
            exact ⟨q, hqmem, hqid.symm⟩
      · rw [if_neg hhold]
        have hpsne : ls.participants ≠ [] := List.ne_nil_of_mem hw
        have hold : ls.remoteHolder ≠ "" := fun hh => hpsne (hiff.mp hh)
        obtain ⟨q, hq, hqid⟩ := hex hpsne
        have hqpid : q.id ≠ pid := fun he => hhold (hqid.symm.trans he)
        have hqmem : q ∈ ls.participants.filter (fun r => r.id ≠ pid) :=
          List.mem_filter.mpr ⟨hq, by simpa using hqpid⟩
        refine ⟨?_, ?_, ?_⟩
        · constructor
          · intro hh
            exact absurd hh hold
          · intro hh
            exact absurd hh (List.ne_nil_of_mem hqmem)
        · intro r hr
          exact hids r (List.mem_of_mem_filter hr)
        · intro _
          exact ⟨q, hqmem, hqid⟩
    by_cases hlen : (ls.participants.filter (fun q => q.id ≠ pid)).length = 0
    · rw [if_pos hlen]
      exact hmain
    · rw [if_neg hlen]
      exact hmain

theorem holderInv_handleMessage (ls : LiveSession) (sender : Participant)
    (c : Command) (h : holderInv ls) : holderInv (HandleMessage ls sender c).session := by
  obtain ⟨hiff, hids, hex⟩ := h
  cases c with
  | play =>
    simp only [HandleMessage]
    rw [session_handlePlay]
    split <;> exact holderInv_of_eq ⟨hiff, hids, hex⟩ rfl rfl
  | pause =>
    simp only [HandleMessage]
    rw [session_handlePause]
    split <;> exact holderInv_of_eq ⟨hiff, hids, hex⟩ rfl rfl
  | seek p =>
    simp only [HandleMessage]
    rw [session_handleSeek]
    split <;> exact holderInv_of_eq ⟨hiff, hids, hex⟩ rfl rfl
  | skipNext =>
    simp only [HandleMessage]
    rw [session_handleSkipNext]
    split
    · split <;> exact holderInv_of_eq ⟨hiff, hids, hex⟩ rfl rfl
    · exact ⟨hiff, hids, hex⟩
  | skipPrev =>
    simp only [HandleMessage]
    rw [session_handleSkipPrev]
    split
    · split <;> exact holderInv_of_eq ⟨hiff, hids, hex⟩ rfl rfl
    · exact ⟨hiff, hids, hex⟩
  | sync p ti =>
    simp only [HandleMessage]
    rw [session_handleSync]
    split <;> exact holderInv_of_eq ⟨hiff, hids, hex⟩ rfl rfl
  | passRemote pid =>
    simp only [HandleMessage]
    rw [session_handlePassRemote]
    split
    · split
      · rename_i hfind
        rw [Option.isSome_iff_exists] at hfind
        obtain ⟨w, hfw⟩ := hfind
        have hwmem := List.mem_of_find?_eq_some hfw
        have hwid : w.id = pid := by simpa using List.find?_some hfw
        refine ⟨?_, ?_, ?_⟩
        · constructor
          · intro hh
            exact absurd (hwid.trans hh) (hids w hwmem)
          · intro hh
            exact absurd hh (List.ne_nil_of_mem hwmem)
        · exact hids
        · intro _
          exact ⟨w, hwmem, hwid⟩
      · exact ⟨hiff, hids, hex⟩
    · exact ⟨hiff, hids, hex⟩
  | requestRemote =>
    simp only [HandleMessage]
    rw [session_handleRequestRemote]
    exact ⟨hiff, hids, hex⟩
  | acceptRemoteRequest pid =>
    simp only [HandleMessage]
    rw [session_handleAcceptRemoteRequest]
    split
    · split
      · rename_i hfind
        rw [Option.isSome_iff_exists] at hfind
        obtain ⟨w, hfw⟩ := hfind
        have hwmem := List.mem_of_find?_eq_some hfw
        have hwid : w.id = pid := by simpa using List.find?_some hfw
        refine ⟨?_, ?_, ?_⟩
        · constructor
          · intro hh
            exact absurd (hwid.trans hh) (hids w hwmem)
          · intro hh
            exact absurd hh (List.ne_nil_of_mem hwmem)
        · exact hids
        · intro _
          exact ⟨w, hwmem, hwid⟩
      · exact ⟨hiff, hids, hex⟩
    · exact ⟨hiff, hids, hex⟩
  | queueAdd lookup =>
    simp only [HandleMessage]
    rw [session_handleQueueAdd]
    split
    · rcases lookup with _ | mf
      · exact ⟨hiff, hids, hex⟩
      · exact holderInv_of_eq ⟨hiff, hids, hex⟩ rfl rfl
    · exact ⟨hiff, hids, hex⟩
  | queueRemove qp =>
    simp only [HandleMessage]
    rw [session_handleQueueRemove]
    split
    · split
      · exact ⟨hiff, hids, hex⟩
      · split
        · exact ⟨hiff, hids, hex⟩
        · exact holderInv_of_eq ⟨hiff, hids, hex⟩ rfl rfl
    · exact ⟨hiff, hids, hex⟩
  | queueReorder f t =>
    simp only [HandleMessage]
    rw [session_handleQueueReorder]
    split
    · split
      · exact ⟨hiff, hids, hex⟩
      · exact holderInv_of_eq ⟨hiff, hids, hex⟩ rfl rfl
    · exact ⟨hiff, hids, hex⟩
  | endSession =>
    simp only [HandleMessage]
    rw [session_handleEndSession]
    exact ⟨hiff, hids, hex⟩
  | unknown a =>
    exact ⟨hiff, hids, hex⟩

theorem holderInv_createSession (sid uid fmt : String) (mbr : Int)
    (files : List MediaFile) : holderInv (CreateSession sid uid fmt mbr files) := by
  refine ⟨⟨fun _ => rfl, fun _ => rfl⟩, ?_, ?_⟩
  · intro q hq
    cases hq
  · intro hne
    exact absurd rfl hne

theorem holderInv_applyOps (ls : LiveSession) (ops : List Op) (h : holderInv ls)
    (hids : ∀ p : Participant, Op.join p ∈ ops → p.id ≠ "") :
    holderInv (applyOps ls ops) := by
  induction ops generalizing ls with
  | nil => exact h
  | cons op rest ih =>
    have hop : holderInv (applyOp ls op) := by
      cases op with
      | join p => exact holderInv_join ls p h (hids p (List.mem_cons_self _ _))
      | leave pid => exact holderInv_leave ls pid h
      | command sender c => exact holderInv_handleMessage ls sender c h
    exact ih _ hop (fun p hp => hids p (List.mem_cons_of_mem _ hp))

/-- C4: after any sequence of joins, leaves and commands on a freshly created
session (all joiners having the non-empty IDs the uuid generator produces),
remoteHolder is the empty string iff the participant set is empty, and when
non-empty the remoteHolder is the ID of a member of the participant set. -/
theorem C4_remote_holder_membership (sid uid fmt : String) (mbr : Int)
    (files : List MediaFile) (ops : List Op)
    (hids : ∀ p : Participant, Op.join p ∈ ops → p.id ≠ "") :
    ((applyOps (CreateSession sid uid fmt mbr files) ops).remoteHolder = "" ↔
      (applyOps (CreateSession sid uid fmt mbr files) ops).participants = []) ∧
    ((applyOps (CreateSession sid uid fmt mbr files) ops).participants ≠ [] →
      ∃ q ∈ (applyOps (CreateSession sid uid fmt mbr files) ops).participants,
        q.id = (applyOps (CreateSession sid uid fmt mbr files) ops).remoteHolder) := by
  have h := holderInv_applyOps (CreateSession sid uid fmt mbr files) ops
    (holderInv_createSession sid uid fmt mbr files) hids
  exact ⟨h.1, h.2.2⟩

/-- C4 (witness): the theorem applied to a join-join-leave sequence. -/
theorem C4_remote_holder_membership_witness :
    ((applyOps (CreateSession "S" "u" "" 0 [mf0])
        [Op.join hostP, Op.join guestP, Op.leave "P1"]).remoteHolder = "" ↔
      (applyOps (CreateSession "S" "u" "" 0 [mf0])
        [Op.join hostP, Op.join guestP, Op.leave "P1"]).participants = []) ∧
    ((applyOps (CreateSession "S" "u" "" 0 [mf0])
        [Op.join hostP, Op.join guestP, Op.leave "P1"]).participants ≠ [] →
      ∃ q ∈ (applyOps (CreateSession "S" "u" "" 0 [mf0])
        [Op.join hostP, Op.join guestP, Op.leave "P1"]).participants,
        q.id = (applyOps (CreateSession "S" "u" "" 0 [mf0])
          [Op.join hostP, Op.join guestP, Op.leave "P1"]).remoteHolder) :=
  C4_remote_holder_membership "S" "u" "" 0 [mf0]
    [Op.join hostP, Op.join guestP, Op.leave "P1"]
    (by
      intro p hp
      simp only [List.mem_cons, List.not_mem_nil, or_false] at hp
      rcases hp with hp | hp | hp
      · rw [Op.join.injEq] at hp
        subst hp
        decide
      · rw [Op.join.injEq] at hp
        subst hp
        decide
      · cases hp)

/-- Demo session with two participants, the host holding the remote. -/
def twoSession : LiveSession :=
  Join (Join (CreateSession "S2" "u" "" 0 [mf0]) hostP) guestP

/-- C8: when the participant holding the remote leaves a session with at least
one remaining participant, the new remoteHolder is the ID of a remaining
participant with the earliest JoinedAt (the longest-connected remaining
participant). -/
theorem C8_leave_transfers_to_longest_connected (ls : LiveSession) (pid : String)
    (hfind : (ls.participants.find? (fun q => q.id = pid)).isSome = true)
    (hhold : ls.remoteHolder = pid)
    (hrem : ls.participants.filter (fun q => q.id ≠ pid) ≠ []) :
    ∃ q ∈ (Leave ls pid).1.participants,
      (Leave ls pid).1.remoteHolder = q.id ∧
      ∀ r ∈ (Leave ls pid).1.participants, q.joinedAt ≤ r.joinedAt := by
  simp only [Leave]
  rcases hf : ls.participants.find? (fun q => q.id = pid) with _ | w
  · rw [hf] at hfind
    simp at hfind
  · rw [hf]
    by_cases hlen : (ls.participants.filter (fun q => q.id ≠ pid)).length = 0
    · exact absurd (List.length_eq_zero.mp hlen) hrem
    · rw [if_neg hlen]
      dsimp only
      rw [if_pos hhold]
      exact findLongestConnected_spec _ hrem

/-- C8 (witness): the theorem applied to the two-participant session when the
host (the holder) leaves. -/
theorem C8_leave_transfers_witness :
    ∃ q ∈ (Leave twoSession "P1").1.participants,
      (Leave twoSession "P1").1.remoteHolder = q.id ∧
      ∀ r ∈ (Leave twoSession "P1").1.participants, q.joinedAt ≤ r.joinedAt :=
  C8_leave_transfers_to_longest_connected twoSession "P1" (by decide) (by decide)
    (by decide)

end ListenTogether
